import Mathlib

/-!
Shallow embedding of the multi-object Kalman tracker in `src/predict.py`
(classes `KalmanObjectState`, `KalmanFilterGeneric`, `KalmanFilterBasic`,
and the function `SimpleRandomInitializer`), over exact rational arithmetic.

Conventions of the embedding:
* numpy 1-d arrays of length n are `Fin n → ℚ`; 2-d arrays are `Matrix`.
* The Python dict `self.state` (object id → object state) is an association
  list `List (ℕ × KalmanObjectState)`; dict operations (`in`, `[...]`,
  `del`, item assignment) are the functions `alookup`, `setKey`, `eraseKey`
  below, with Python dict semantics (unique keys; assignment updates the
  existing entry in place, otherwise appends).
* `np.linalg.inv` applied to the 2×2 innovation covariance is `inv2`,
  the exact adjugate-over-determinant inverse; numpy raises `LinAlgError`
  on a singular argument, so theorems that need the inverse to be a true
  inverse carry the hypothesis `det ≠ 0`.
* `np.sqrt` (used only inside `ComputeError`) is an abstract parameter
  `sq : ℚ → ℚ`: every claim that touches `ComputeError` is independent of
  the value of the square root, and keeping it abstract keeps the model
  executable and exact.
* Python exceptions (`KeyError` on a missing parameter key,
  `ZeroDivisionError` for `0/0` on an empty tracked set, `TypeError` for
  arithmetic on an unset `None` ground truth) are modelled with `Except`.
-/

namespace BayesTrack

open Matrix

abbrev Vec2 := Fin 2 → ℚ
abbrev Vec4 := Fin 4 → ℚ
abbrev Mat2 := Matrix (Fin 2) (Fin 2) ℚ
abbrev Mat4 := Matrix (Fin 4) (Fin 4) ℚ

/-- Per-object estimation record: class `KalmanObjectState` (predict.py
lines 72-126).  `x_true`/`v_true` default to Python `None`, hence
`Option`; `done` is the resolved flag. -/
structure KalmanObjectState where
  x_obs : Vec2
  x_est : Vec4
  x_pred : Vec4
  x_cov : Mat4
  x_true : Option Vec2
  v_true : Option Vec2
  done : Bool
deriving DecidableEq

/-- Method `SetObservation` (line 95). -/
def SetObservation (s : KalmanObjectState) (x : Vec2) : KalmanObjectState :=
  { s with x_obs := x }

/-- Method `SetTrueState` (line 88); `UpdateTrackedObjects` always passes
both components, so the fields become `some`. -/
def SetTrueState (s : KalmanObjectState) (xt vt : Vec2) : KalmanObjectState :=
  { s with x_true := some xt, v_true := some vt }

/-- Method `MarkDone` (line 119). -/
def MarkDone (s : KalmanObjectState) : KalmanObjectState :=
  { s with done := true }

/-- The four scalar parameters read from the pickled `parameters` dict,
after successful lookup (`dt`, `pos_sigma`, `a_sigma` in
`KalmanFilterGeneric.__init__`, `v_mean` in `SimpleRandomInitializer`). -/
structure KFParams where
  dt : ℚ
  pos_sigma : ℚ
  a_sigma : ℚ
  v_mean : ℚ
deriving DecidableEq

/-- Evolution matrix `self.F` (lines 165-168):
`vstack [hstack [I2, dt*I2], hstack [0, I2]]`, written out entrywise. -/
def Fmat (dt : ℚ) : Mat4 :=
  !![1, 0, dt, 0;
     0, 1, 0, dt;
     0, 0, 1, 0;
     0, 0, 0, 1]

/-- Observation matrix `self.H` (line 169): `hstack [I2, 0]`. -/
def Hmat : Matrix (Fin 2) (Fin 4) ℚ :=
  !![1, 0, 0, 0;
     0, 1, 0, 0]

/-- The matrix `G` of line 171: `vstack [I2*dt*dt/2, I2*dt]`. -/
def Gmat (dt : ℚ) : Matrix (Fin 4) (Fin 2) ℚ :=
  !![dt * dt / 2, 0;
     0, dt * dt / 2;
     dt, 0;
     0, dt]

/-- Process-noise matrix `self.Q = a_sigma * a_sigma * (G @ Gᵗ)` (line 172). -/
def Qmat (dt a_sigma : ℚ) : Mat4 :=
  (a_sigma * a_sigma) • (Gmat dt * (Gmat dt)ᵀ)

/-- Observation-noise matrix `self.R = pos_sigma * pos_sigma * I2` (line 173). -/
def Rmat (pos_sigma : ℚ) : Mat2 :=
  (pos_sigma * pos_sigma) • (1 : Mat2)

/-- Exact inverse of a 2×2 rational matrix (adjugate over determinant),
modelling `np.linalg.inv(S)` at line 207.  numpy raises `LinAlgError` on a
singular input; here the function is total and the theorems that use it as
an inverse assume `S.det ≠ 0`. -/
def inv2 (S : Mat2) : Mat2 :=
  (S.det)⁻¹ • !![S 1 1, -(S 0 1); -(S 1 0), S 0 0]

/-- Innovation covariance `S = H @ xcov @ Hᵗ + R` of lines 205-206. -/
def innovCov (pos_sigma : ℚ) (P : Mat4) : Mat2 :=
  Hmat * P * Hmatᵀ + Rmat pos_sigma

/-- Kalman gain `K = xcov @ Hᵗ @ Sinv` of line 208. -/
def gainK (pos_sigma : ℚ) (P : Mat4) : Matrix (Fin 4) (Fin 2) ℚ :=
  P * Hmatᵀ * inv2 (innovCov pos_sigma P)

/-- Body of the prediction loop of `KalmanFilterGeneric.Estimate`
(lines 188-194): `xp = F @ x_est`, `xcov = F @ x_cov @ Fᵗ + Q`, then
`SetPredictedState`, `SetStateCov`, `ResetDone`. -/
def predictStep (p : KFParams) (s : KalmanObjectState) : KalmanObjectState :=
  let xp := (Fmat p.dt).mulVec s.x_est
  let xcov := Fmat p.dt * s.x_cov * (Fmat p.dt)ᵀ + Qmat p.dt p.a_sigma
  { s with x_pred := xp, x_cov := xcov, done := false }

/-- Body of the correction loop of `KalmanFilterGeneric.Estimate`
(lines 202-214), for an object with `done = false`:
`y = x_obs - H @ x_pred`, `S = H @ x_cov @ Hᵗ + R`, `Sinv = inv S`,
`K = x_cov @ Hᵗ @ Sinv`, `xe = x_pred + K @ y`,
`xcov = (I - K @ H) @ x_cov`, then `SetEstimatedState`, `SetStateCov`,
`MarkDone`. -/
def correctStep (p : KFParams) (s : KalmanObjectState) : KalmanObjectState :=
  let y := s.x_obs - Hmat.mulVec s.x_pred
  let K := gainK p.pos_sigma s.x_cov
  let xe := s.x_pred + K.mulVec y
  let xcov := (1 - K * Hmat) * s.x_cov
  { s with x_est := xe, x_cov := xcov, done := true }

/-- The Python dict of tracked objects, `self.state`. -/
abbrev TrackedSet := List (ℕ × KalmanObjectState)

/-- One record of a frame's data file, as returned by
`data_reader.ReadStateWithID`: `(truePosition, trueVelocity, observedPosition)`
(indices 0, 1, 2 in the source). -/
abbrev ObsRecord := Vec2 × Vec2 × Vec2

/-- A frame's record set: the dict `input_data`, identity-keyed. -/
abbrev FrameData := List (ℕ × ObsRecord)

/-- Dict lookup (`d[k]` / `k in d`): first entry with the given key. -/
def alookup {β : Type} : List (ℕ × β) → ℕ → Option β
  | [], _ => none
  | q :: rest, k => if q.1 = k then some q.2 else alookup rest k

/-- Dict assignment `d[k] = v`: replace the entry with key `k` in place if
present, otherwise append. -/
def setKey {β : Type} : List (ℕ × β) → ℕ → β → List (ℕ × β)
  | [], k, v => [(k, v)]
  | q :: rest, k, v => if q.1 = k then (k, v) :: rest else q :: setKey rest k v

/-- Dict deletion `del d[k]`: remove the entry with key `k` (keys are
unique in a dict, so removing the first occurrence is removing the entry). -/
def eraseKey {β : Type} : List (ℕ × β) → ℕ → List (ℕ × β)
  | [], _ => []
  | q :: rest, k => if q.1 = k then rest else q :: eraseKey rest k

/-- Keys of the tracked set are pairwise distinct — the dict invariant. -/
def nodupKeys {β : Type} (st : List (ℕ × β)) : Prop :=
  (st.map Prod.fst).Nodup

/-- The prediction phase of `Estimate` (lines 188-194): every tracked
object is predicted forward; keys are untouched. -/
def predictPhase (p : KFParams) (st : TrackedSet) : TrackedSet :=
  st.map fun q => (q.1, predictStep p q.2)

/-- The correction phase of `Estimate` (lines 199-214): objects with
`done = true` are skipped (`continue`), the rest are corrected. -/
def correctPhase (p : KFParams) (st : TrackedSet) : TrackedSet :=
  st.map fun q => if q.2.done then q else (q.1, correctStep p q.2)

/-- Signed distances to the four boundary edges (lines 234-236):
`[x-delta, y-delta, x-(1-delta), y-(1-delta)]` with `delta = v_mean*dt`. -/
def boundaryMean (p : KFParams) (pos : Vec2) : Vec4 :=
  let delta := p.v_mean * p.dt
  ![pos 0 - delta, pos 1 - delta, pos 0 - (1 - delta), pos 1 - (1 - delta)]

/-- The side index `np.argmin(np.abs(mean))` of line 239: index of the
minimum absolute value, first occurrence winning on ties (numpy argmin
semantics: a later index replaces the current best only on strict
decrease). -/
def argminAbs (m : Vec4) : Fin 4 :=
  let b1 : Fin 4 := if |m 1| < |m 0| then 1 else 0
  let b2 : Fin 4 := if |m 2| < |m b1| then 2 else b1
  if |m 3| < |m b2| then 3 else b2

/-- Initial velocity from the selected side (lines 240-249). -/
def initVelocity (v_mean : ℚ) (side : Fin 4) : Vec2 :=
  if side = 0 then ![v_mean, 0]
  else if side = 1 then ![0, v_mean]
  else if side = 2 then ![-v_mean, 0]
  else ![0, -v_mean]

/-- Initial block-diagonal covariance of lines 228-231:
`vstack [hstack [pos_sigma^2 I2, 0], hstack [0, a_sigma^2 I2]]`. -/
def covInit (pos_sigma a_sigma : ℚ) : Mat4 :=
  !![pos_sigma * pos_sigma, 0, 0, 0;
     0, pos_sigma * pos_sigma, 0, 0;
     0, 0, a_sigma * a_sigma, 0;
     0, 0, 0, a_sigma * a_sigma]

/-- Function `SimpleRandomInitializer(parameters, pos)` (lines 222-253).
`pos` arrives as a Python list, so `pos + v` at line 251 is list
concatenation: the estimated state is the 4-vector `[pos, v]`, embedded
with `Fin.append`.  The returned object has `done = True`. -/
def SimpleRandomInitializer (p : KFParams) (pos : Vec2) : KalmanObjectState :=
  let cov := covInit p.pos_sigma p.a_sigma
  let mean := boundaryMean p pos
  let side := argminAbs mean
  let v := initVelocity p.v_mean side
  let xe : Vec4 := Fin.append pos v
  { x_obs := pos, x_est := xe, x_pred := xe, x_cov := cov,
    x_true := none, v_true := none, done := true }

/-- Removal half of `KalmanFilterBasic.UpdateTrackedObjects`
(lines 289-293): `tracking = self.state.keys()` takes a snapshot of the
key list, then the loop over that snapshot deletes every identity absent
from `input_data` — the dict itself is never the sequence being iterated
(Python 2 `keys()` returns a fresh list). -/
def removePhase (st : TrackedSet) (input : FrameData) : TrackedSet :=
  let tracking := st.map Prod.fst
  tracking.foldl
    (fun acc oid => if (alookup input oid).isNone then eraseKey acc oid else acc)
    st

/-- One iteration of the update half of `UpdateTrackedObjects`
(lines 295-308): a tracked identity gets its observation overwritten, a
new identity gets a fresh initializer object with `MarkDone` applied;
in both cases the ground-truth pair is stored on the entry. -/
def refreshOne (p : KFParams) (st : TrackedSet) (oid : ℕ) (r : ObsRecord) :
    TrackedSet :=
  match alookup st oid with
  | some o => setKey st oid (SetTrueState (SetObservation o r.2.2) r.1 r.2.1)
  | none =>
      setKey st oid
        (SetTrueState (MarkDone (SimpleRandomInitializer p r.2.2)) r.1 r.2.1)

/-- Update half of `UpdateTrackedObjects`: the loop over
`input_data.items()`. -/
def updatePhase (p : KFParams) (st : TrackedSet) (input : FrameData) :
    TrackedSet :=
  input.foldl (fun acc qr => refreshOne p acc qr.1 qr.2) st

/-- Method `KalmanFilterBasic.UpdateTrackedObjects(frame)` (lines 283-308),
with the frame's record set passed in as `input` (the file read and its
fatal-if-absent check are the I/O boundary). -/
def UpdateTrackedObjects (p : KFParams) (input : FrameData) (st : TrackedSet) :
    TrackedSet :=
  updatePhase p (removePhase st input) input

/-- Method `KalmanFilterGeneric.Estimate(frame)` (lines 186-214):
predict every object, refresh the tracked set from the frame's records,
correct every object still unresolved. -/
def Estimate (p : KFParams) (input : FrameData) (st : TrackedSet) : TrackedSet :=
  correctPhase p (UpdateTrackedObjects p input (predictPhase p st))

/-- Position block `est[0:2]` of a state 4-vector. -/
def posPart (v : Vec4) : Vec2 := fun i => v ⟨i.val, by omega⟩

/-- Velocity block `est[2:4]` of a state 4-vector. -/
def velPart (v : Vec4) : Vec2 := fun i => v ⟨i.val + 2, by omega⟩

/-- Sum of squares of a 2-vector difference, the argument of `np.sqrt` in
lines 320-321. -/
def sumSq (v : Vec2) : ℚ := v 0 * v 0 + v 1 * v 1

/-- The two per-object error terms of lines 317-321, `sq` standing for
`np.sqrt`.  If the ground truth was never set (`None`), the subtraction
`xe - xt` raises a `TypeError` in Python, hence `Except`. -/
def objErr (sq : ℚ → ℚ) (s : KalmanObjectState) : Except String (ℚ × ℚ) :=
  match s.x_true, s.v_true with
  | some xt, some vt =>
      Except.ok (sq (sumSq (posPart s.x_est - xt)), sq (sumSq (velPart s.x_est - vt)))
  | _, _ => Except.error "TypeError"

/-- Method `KalmanFilterBasic.ComputeError` (lines 313-324).  The pair it
returns is the `(pos_error, vel_error)` value appended to the two series.
With `self.state` empty, `frame_pos_error` and `num_objects` are both the
integer 0 and `0/0` raises `ZeroDivisionError`; with a nonempty state the
division is by a positive count and cannot fail. -/
def ComputeError (sq : ℚ → ℚ) (st : TrackedSet) : Except String (ℚ × ℚ) := do
  let terms ← st.mapM fun q => objErr sq q.2
  let fpe := (terms.map Prod.fst).sum
  let fve := (terms.map Prod.snd).sum
  let num : ℤ := st.length
  if st.length = 0 then Except.error "ZeroDivisionError"
  else Except.ok (fpe / (num : ℚ), fve / (num : ℚ))

/-- The pickled parameters dict restricted to its four required keys; a
`none` field is a missing key, whose access raises `KeyError`. -/
structure ParamDict where
  dt : Option ℚ
  pos_sigma : Option ℚ
  a_sigma : Option ℚ
  v_mean : Option ℚ
deriving DecidableEq

/-- Dict access `parameters[k]`: `KeyError` when the key is missing. -/
def requireKey (k : String) : Option ℚ → Except String ℚ
  | some v => Except.ok v
  | none => Except.error ("KeyError: " ++ k)

/-- The model matrices `KalmanFilterGeneric.__init__` stores (self.F,
self.H, self.Q, self.R). -/
structure KFInitData where
  F : Mat4
  H : Matrix (Fin 2) (Fin 4) ℚ
  Q : Mat4
  R : Mat2
deriving DecidableEq

/-- Parameter access of `KalmanFilterGeneric.__init__` (lines 159-173):
it reads `dt`, `pos_sigma`, `a_sigma` — and only those — before any frame
is processed, and builds the fixed model matrices. -/
def KalmanFilterGenericInit (pd : ParamDict) : Except String KFInitData := do
  let dt ← requireKey "dt" pd.dt
  let ps ← requireKey "pos_sigma" pd.pos_sigma
  let asig ← requireKey "a_sigma" pd.a_sigma
  return { F := Fmat dt, H := Hmat, Q := Qmat dt asig, R := Rmat ps }

/-- Parameter access of `SimpleRandomInitializer` (lines 225-234): it
reads `pos_sigma`, `a_sigma`, `v_mean`, `dt`, in that order, when a new
object is initialized — the first point at which a missing `v_mean`
raises. -/
def SimpleRandomInitializerE (pd : ParamDict) (pos : Vec2) :
    Except String KalmanObjectState := do
  let ps ← requireKey "pos_sigma" pd.pos_sigma
  let asig ← requireKey "a_sigma" pd.a_sigma
  let vm ← requireKey "v_mean" pd.v_mean
  let dt ← requireKey "dt" pd.dt
  return SimpleRandomInitializer ⟨dt, ps, asig, vm⟩ pos

/-- Result-state test for `Except`. -/
def isOkE {ε α : Type} : Except ε α → Bool
  | Except.ok _ => true
  | Except.error _ => false

/-- A matrix is symmetric and positive semi-definite (the §3 invariant on
`stateCovariance`), over exact rationals. -/
def SymPSD {n : ℕ} (M : Matrix (Fin n) (Fin n) ℚ) : Prop :=
  Mᵀ = M ∧ ∀ x : Fin n → ℚ, 0 ≤ x ⬝ᵥ M.mulVec x

end BayesTrack

namespace BayesTrack
open Matrix

/-! Concrete fixtures used by the witness theorems below. -/

/-- The parameter fixture of the spec: `dt=1, pos_sigma=1, a_sigma=0.1, v_mean=1`. -/
def p4 : KFParams := ⟨1, 1, 1/10, 1⟩

/-- Unit parameters: `dt = pos_sigma = a_sigma = v_mean = 1`. -/
def pU : KFParams := ⟨1, 1, 1, 1⟩

/-- An unresolved object whose observation sits exactly on `H · x_pred`,
with identity covariance. -/
def s3 : KalmanObjectState :=
  { x_obs := ![1, 2], x_est := ![0, 0, 0, 0], x_pred := ![1, 2, 3, 4],
    x_cov := 1, x_true := none, v_true := none, done := false }

/-- An unresolved object with identity covariance at the origin. -/
def s6 : KalmanObjectState :=
  { x_obs := ![0, 0], x_est := ![0, 0, 0, 0], x_pred := ![0, 0, 0, 0],
    x_cov := 1, x_true := none, v_true := none, done := false }

/-- A single frame record for a fresh identity. -/
def r5 : ObsRecord := (![1, 0], ![0, 1], ![1/2, 1/3])

/-- A record set containing only the fresh identity 5. -/
def input5 : FrameData := [(5, r5)]

/-- A tracked set containing only identity 7. -/
def st9 : TrackedSet := [(7, s6)]

/-- A tracked set with identities 1, 2, 3. -/
def st10 : TrackedSet := [(1, s6), (2, s6), (3, s6)]

/-- A record set observing only identity 2: identities 1 and 3 disappear
at once. -/
def input10 : FrameData := [(2, r5)]

/-- A parameter dict with `dt`, `pos_sigma`, `a_sigma` present and
`v_mean` missing. -/
def pd0 : ParamDict := ⟨some 1, some 1, some 1, none⟩

/-! Helper lemmas about the 2×2 inverse and quadratic forms. -/

theorem inv2_mul_self (S : Mat2) (h : S.det ≠ 0) : S * inv2 S = 1 := by
  have hd : S 0 0 * S 1 1 - S 0 1 * S 1 0 ≠ 0 := by
    rwa [Matrix.det_fin_two] at h
  ext i j
  fin_cases i <;> fin_cases j <;>
    simp [inv2, Matrix.mul_apply, Fin.sum_univ_two, Matrix.det_fin_two,
      Matrix.one_apply] <;>
    field_simp <;> ring

theorem inv2_transpose (S : Mat2) (h : Sᵀ = S) : (inv2 S)ᵀ = inv2 S := by
  have h01 : S 1 0 = S 0 1 := by
    have := congrFun (congrFun h 0) 1
    simpa [Matrix.transpose_apply] using this
  ext i j
  fin_cases i <;> fin_cases j <;>
    simp [inv2, Matrix.transpose_apply, h01]

theorem dotSelf_nonneg {n : ℕ} (v : Fin n → ℚ) : 0 ≤ v ⬝ᵥ v :=
  Finset.sum_nonneg fun i _ => mul_self_nonneg (v i)

theorem Rmat_psd (ps : ℚ) (z : Vec2) : 0 ≤ z ⬝ᵥ (Rmat ps).mulVec z := by
  rw [Rmat, Matrix.smul_mulVec_assoc, Matrix.one_mulVec, Matrix.dotProduct_smul]
  exact mul_nonneg (mul_self_nonneg ps) (dotSelf_nonneg z)

theorem innovCov_transpose (ps : ℚ) (P : Mat4) (hP : Pᵀ = P) :
    (innovCov ps P)ᵀ = innovCov ps P := by
  rw [innovCov, Matrix.transpose_add, Matrix.transpose_mul, Matrix.transpose_mul,
    Matrix.transpose_transpose, hP, Rmat, Matrix.transpose_smul,
    Matrix.transpose_one, Matrix.mul_assoc]

theorem transpose_dot_shift (z : Vec2) (P : Mat4) (v : Vec4) :
    (Hmatᵀ.mulVec z) ⬝ᵥ P.mulVec v = z ⬝ᵥ Hmat.mulVec (P.mulVec v) := by
  rw [Matrix.mulVec_transpose, ← Matrix.dotProduct_mulVec]

/-- The completion-of-squares identity behind covariance positivity: the
quadratic form of the corrected covariance `(I - K·H)·P` splits into the
form of `P` at a shifted vector plus the form of `R`, provided the
innovation covariance is invertible.  No symmetry of `P` is needed. -/
theorem correct_quadform (ps : ℚ) (P : Mat4)
    (hdet : (innovCov ps P).det ≠ 0) (x : Vec4) :
    x ⬝ᵥ (((1 : Mat4) - gainK ps P * Hmat) * P).mulVec x =
      (x - Hmatᵀ.mulVec ((inv2 (innovCov ps P)).mulVec (Hmat.mulVec (P.mulVec x)))) ⬝ᵥ
        P.mulVec
          (x - Hmatᵀ.mulVec ((inv2 (innovCov ps P)).mulVec (Hmat.mulVec (P.mulVec x)))) +
      ((inv2 (innovCov ps P)).mulVec (Hmat.mulVec (P.mulVec x))) ⬝ᵥ
        (Rmat ps).mulVec ((inv2 (innovCov ps P)).mulVec (Hmat.mulVec (P.mulVec x))) := by
  have hy0 : Hmat.mulVec (P.mulVec x) = (Hmat * P).mulVec x := Matrix.mulVec_mulVec x Hmat P
  generalize hz : (inv2 (innovCov ps P)).mulVec (Hmat.mulVec (P.mulVec x)) = z
  generalize hw : Hmatᵀ.mulVec z = w
  have hL : x ⬝ᵥ (((1 : Mat4) - gainK ps P * Hmat) * P).mulVec x =
      x ⬝ᵥ P.mulVec x - x ⬝ᵥ P.mulVec w := by
    rw [Matrix.sub_mul, Matrix.one_mul, Matrix.sub_mulVec, Matrix.dotProduct_sub]
    congr 2
    rw [← hw, ← hz, gainK]
    simp [Matrix.mulVec_mulVec, Matrix.mul_assoc]
  have hexp : (x - w) ⬝ᵥ P.mulVec (x - w) =
      x ⬝ᵥ P.mulVec x - x ⬝ᵥ P.mulVec w - w ⬝ᵥ P.mulVec x + w ⬝ᵥ P.mulVec w := by
    rw [Matrix.mulVec_sub, Matrix.dotProduct_sub, Matrix.sub_dotProduct,
      Matrix.sub_dotProduct]
    ring
  have hc : w ⬝ᵥ P.mulVec x = w ⬝ᵥ P.mulVec w + z ⬝ᵥ (Rmat ps).mulVec z := by
    have h1 : w ⬝ᵥ P.mulVec x = z ⬝ᵥ Hmat.mulVec (P.mulVec x) := by
      rw [← hw]; exact transpose_dot_shift z P x
    have h2 : w ⬝ᵥ P.mulVec w = z ⬝ᵥ ((Hmat * P * Hmatᵀ).mulVec z) := by
      rw [← hw, transpose_dot_shift]
      congr 1
      simp [Matrix.mulVec_mulVec, Matrix.mul_assoc]
    rw [h1, h2, ← hz]
    rw [hy0]
    have h3 : (Hmat * P * Hmatᵀ).mulVec ((inv2 (innovCov ps P)).mulVec ((Hmat * P).mulVec x)) +
        (Rmat ps).mulVec ((inv2 (innovCov ps P)).mulVec ((Hmat * P).mulVec x)) =
        (Hmat * P).mulVec x := by
      rw [← Matrix.add_mulVec, ← innovCov, Matrix.mulVec_mulVec,
        inv2_mul_self _ hdet, Matrix.one_mulVec]
    rw [← Matrix.dotProduct_add, h3]
  rw [hL, hexp, hc]
  ring

theorem predictCov_symm (dt asig : ℚ) (P : Mat4) (hP : Pᵀ = P) :
    (Fmat dt * P * (Fmat dt)ᵀ + Qmat dt asig)ᵀ =
      Fmat dt * P * (Fmat dt)ᵀ + Qmat dt asig := by
  simp [Matrix.transpose_add, Matrix.transpose_mul, Matrix.transpose_transpose,
    hP, Qmat, Matrix.transpose_smul, Matrix.mul_assoc]

theorem predictCov_psd (dt asig : ℚ) (P : Mat4)
    (hP : ∀ x : Vec4, 0 ≤ x ⬝ᵥ P.mulVec x) (x : Vec4) :
    0 ≤ x ⬝ᵥ (Fmat dt * P * (Fmat dt)ᵀ + Qmat dt asig).mulVec x := by
  rw [Matrix.add_mulVec, Matrix.dotProduct_add]
  have h1 : x ⬝ᵥ (Fmat dt * P * (Fmat dt)ᵀ).mulVec x =
      ((Fmat dt)ᵀ.mulVec x) ⬝ᵥ P.mulVec ((Fmat dt)ᵀ.mulVec x) := by
    rw [← Matrix.mulVec_mulVec, ← Matrix.mulVec_mulVec, Matrix.dotProduct_mulVec,
      ← Matrix.mulVec_transpose]
  have h2 : x ⬝ᵥ (Qmat dt asig).mulVec x =
      (asig * asig) * (((Gmat dt)ᵀ.mulVec x) ⬝ᵥ ((Gmat dt)ᵀ.mulVec x)) := by
    rw [Qmat, Matrix.smul_mulVec_assoc, Matrix.dotProduct_smul, smul_eq_mul]
    congr 1
    rw [← Matrix.mulVec_mulVec, Matrix.dotProduct_mulVec, ← Matrix.mulVec_transpose]
  rw [h1, h2]
  exact add_nonneg (hP _)
    (mul_nonneg (mul_self_nonneg asig)
      (dotSelf_nonneg ((Gmat dt)ᵀ.mulVec x)))

theorem innovCov_one : innovCov 1 (1 : Mat4) = !![2, 0; 0, 2] := by
  ext i j
  simp only [innovCov, Matrix.mul_one, Matrix.add_apply, Matrix.mul_apply,
    Matrix.transpose_apply, Fin.sum_univ_four]
  fin_cases i <;> fin_cases j <;>
    norm_num [Hmat, Rmat, Matrix.smul_apply, Matrix.one_apply]

theorem innovCov_one_det : (innovCov 1 (1 : Mat4)).det ≠ 0 := by
  rw [innovCov_one]
  norm_num [Matrix.det_fin_two_of]

theorem correctCov_symm (ps : ℚ) (P : Mat4) (hP : Pᵀ = P) :
    (((1 : Mat4) - gainK ps P * Hmat) * P)ᵀ = ((1 : Mat4) - gainK ps P * Hmat) * P := by
  have hSymS : (innovCov ps P)ᵀ = innovCov ps P := innovCov_transpose ps P hP
  have hSymInv : (inv2 (innovCov ps P))ᵀ = inv2 (innovCov ps P) :=
    inv2_transpose _ hSymS
  simp [gainK, Matrix.sub_mul, Matrix.mul_sub, Matrix.one_mul, Matrix.mul_one,
    Matrix.transpose_sub, Matrix.transpose_mul, Matrix.transpose_transpose,
    hP, hSymInv, Matrix.mul_assoc]

/-! Helper lemmas about the association-list embedding of the Python dict. -/

theorem alookup_setKey_self {β : Type} (st : List (ℕ × β)) (k : ℕ) (v : β) :
    alookup (setKey st k v) k = some v := by
  induction st with
  | nil => simp [setKey, alookup]
  | cons q rest ih =>
      by_cases h : q.1 = k
      · simp [setKey, h, alookup]
      · simp [setKey, h, alookup, ih]

theorem alookup_setKey_ne {β : Type} (st : List (ℕ × β)) (k k' : ℕ) (v : β)
    (h : k' ≠ k) : alookup (setKey st k v) k' = alookup st k' := by
  have h' : k ≠ k' := Ne.symm h
  induction st with
  | nil => simp [setKey, alookup, h']
  | cons q rest ih =>
      by_cases hq : q.1 = k
      · subst hq
        simp [setKey, alookup, h', fun hh : q.1 = k' => h' hh]
      · simp only [setKey, hq, if_false, alookup]
        by_cases hq' : q.1 = k'
        · simp [hq']
        · simp [hq', ih]

theorem alookup_map_value (st : TrackedSet) (f : KalmanObjectState → KalmanObjectState)
    (k : ℕ) :
    alookup (st.map fun q => (q.1, f q.2)) k = (alookup st k).map f := by
  induction st with
  | nil => simp [alookup]
  | cons q rest ih =>
      by_cases h : q.1 = k
      · simp [alookup, h]
      · simp [alookup, h, ih]

theorem alookup_eq_none_iff {β : Type} (st : List (ℕ × β)) (k : ℕ) :
    alookup st k = none ↔ k ∉ st.map Prod.fst := by
  induction st with
  | nil => simp [alookup]
  | cons q rest ih =>
      by_cases h : q.1 = k
      · simp [alookup, h]
      · simp [alookup, h, ih, Ne.symm h]

theorem alookup_eraseKey_none {β : Type} (st : List (ℕ × β)) (k k' : ℕ)
    (h : alookup st k' = none) : alookup (eraseKey st k) k' = none := by
  induction st with
  | nil => simp [eraseKey, alookup]
  | cons q rest ih =>
      simp only [alookup] at h
      by_cases hq' : q.1 = k'
      · simp [hq'] at h
      · have hrest : alookup rest k' = none := by simpa [hq'] using h
        by_cases hq : q.1 = k
        · simpa [eraseKey, hq] using hrest
        · simp [eraseKey, hq, alookup, hq', ih hrest]

theorem eraseKey_of_none {β : Type} (st : List (ℕ × β)) (k : ℕ)
    (h : alookup st k = none) : eraseKey st k = st := by
  induction st with
  | nil => simp [eraseKey]
  | cons q rest ih =>
      simp only [alookup] at h
      by_cases hq : q.1 = k
      · simp [hq] at h
      · have hrest : alookup rest k = none := by simpa [hq] using h
        simp [eraseKey, hq, ih hrest]

theorem eraseKey_eq_filter {β : Type} (st : List (ℕ × β)) (k : ℕ)
    (h : nodupKeys st) : eraseKey st k = st.filter fun q => !decide (q.1 = k) := by
  induction st with
  | nil => simp [eraseKey]
  | cons q rest ih =>
      simp only [nodupKeys, List.map_cons, List.nodup_cons] at h
      by_cases hq : q.1 = k
      · subst hq
        have e1 : eraseKey (q :: rest) q.1 = rest := by simp [eraseKey]
        have e2 : ∀ a ∈ rest, (!decide (a.1 = q.1)) = true := fun a ha => by
          simp only [Bool.not_eq_true', decide_eq_false_iff_not]
          exact fun hh => h.1 (hh ▸ List.mem_map_of_mem Prod.fst ha)
        rw [e1, List.filter_cons]
        simp only [decide_True, Bool.not_true, if_false]
        exact (List.filter_eq_self.mpr e2).symm
      · have e1 : eraseKey (q :: rest) k = q :: eraseKey rest k := by
          simp [eraseKey, hq]
        rw [e1, List.filter_cons]
        simp only [hq, decide_False, Bool.not_false, if_true]
        rw [ih h.2]

theorem nodupKeys_filter {β : Type} (st : List (ℕ × β)) (f : ℕ × β → Bool)
    (h : nodupKeys st) : nodupKeys (st.filter f) := by
  induction st with
  | nil => simp [nodupKeys]
  | cons q rest ih =>
      simp only [nodupKeys, List.map_cons, List.nodup_cons] at h
      by_cases hf : f q
      · simp only [List.filter_cons, hf, if_true, nodupKeys, List.map_cons,
          List.nodup_cons]
        refine ⟨fun hmem => h.1 ?_, ih h.2⟩
        obtain ⟨a, ha, hak⟩ := List.mem_map.mp hmem
        exact hak ▸ List.mem_map_of_mem Prod.fst (List.mem_of_mem_filter ha)
      · simpa [List.filter_cons, hf] using ih h.2

theorem foldl_cond_erase {β : Type} (c : ℕ → Bool) (ks : List ℕ) :
    ∀ st : List (ℕ × β), nodupKeys st →
      ks.foldl (fun acc k => if c k then eraseKey acc k else acc) st =
        st.filter fun q => !(decide (q.1 ∈ ks) && c q.1) := by
  induction ks with
  | nil => intro st _; simp
  | cons k ks ih =>
      intro st hst
      by_cases hc : c k = true
      · have h1 : eraseKey st k = st.filter fun q => !decide (q.1 = k) :=
          eraseKey_eq_filter st k hst
        have h2 : nodupKeys (eraseKey st k) := by
          rw [h1]; exact nodupKeys_filter st _ hst
        rw [List.foldl_cons, if_pos hc, ih _ h2, h1, List.filter_filter]
        apply List.filter_congr
        intro q hq
        by_cases hqk : q.1 = k <;> simp [hqk, hc, List.mem_cons]
      · have hc' : c k = false := Bool.not_eq_true _ ▸ eq_false_of_ne_true hc
        rw [List.foldl_cons, if_neg hc, ih st hst]
        apply List.filter_congr
        intro q hq
        by_cases hqk : q.1 = k <;> simp [hqk, hc', List.mem_cons]

theorem removePhase_eq_filter (st : TrackedSet) (input : FrameData)
    (h : nodupKeys st) :
    removePhase st input = st.filter fun q => (alookup input q.1).isSome := by
  rw [removePhase]
  rw [foldl_cond_erase (fun k => (alookup input k).isNone) (st.map Prod.fst) st h]
  apply List.filter_congr
  intro q hq
  have hmem : q.1 ∈ st.map Prod.fst := List.mem_map_of_mem Prod.fst hq
  simp [hmem]

theorem removePhase_two_phase (st : TrackedSet) (input : FrameData)
    (h : nodupKeys st) :
    removePhase st input =
      ((st.map Prod.fst).filter fun k => (alookup input k).isNone).foldl
        eraseKey st := by
  have h1 := removePhase_eq_filter st input h
  have h2 : ((st.map Prod.fst).filter fun k => (alookup input k).isNone).foldl
      eraseKey st =
      st.filter fun q =>
        !(decide (q.1 ∈ (st.map Prod.fst).filter fun k => (alookup input k).isNone)
          && true) := by
    have := foldl_cond_erase (fun _ => true)
      ((st.map Prod.fst).filter fun k => (alookup input k).isNone) st h
    simpa using this
  rw [h1, h2]
  apply List.filter_congr
  intro q hq
  have hmem : q.1 ∈ st.map Prod.fst := List.mem_map_of_mem Prod.fst hq
  simp [List.mem_filter, hmem]
  cases alookup input q.1 <;> simp

theorem alookup_filter_key {β : Type} (f : ℕ → Bool) (st : List (ℕ × β)) (k : ℕ)
    (hk : f k = false) :
    alookup (st.filter fun q => f q.1) k = none := by
  induction st with
  | nil => simp [alookup]
  | cons q rest ih =>
      by_cases hq : q.1 = k
      · rw [List.filter_cons, hq, hk]
        simpa using ih
      · by_cases hf : f q.1
        · rw [List.filter_cons]
          simp only [hf, if_true, alookup, hq, if_false]
          exact ih
        · rw [List.filter_cons]
          simp only [hf, if_false]
          exact ih

theorem alookup_removePhase_none (st : TrackedSet) (input : FrameData) (k : ℕ)
    (h : alookup st k = none) : alookup (removePhase st input) k = none := by
  rw [removePhase]
  generalize st.map Prod.fst = ks
  induction ks generalizing st with
  | nil => simpa using h
  | cons k' ks ih =>
      rw [List.foldl_cons]
      by_cases hc : (alookup input k').isNone
      · rw [if_pos hc]
        exact ih _ (alookup_eraseKey_none st k' k h)
      · rw [if_neg hc]
        exact ih _ h

theorem alookup_refreshOne_ne (p : KFParams) (st : TrackedSet) (k oid : ℕ)
    (r : ObsRecord) (h : oid ≠ k) :
    alookup (refreshOne p st k r) oid = alookup st oid := by
  rw [refreshOne]
  cases alookup st k with
  | none => exact alookup_setKey_ne st k oid _ h
  | some o => exact alookup_setKey_ne st k oid _ h

theorem alookup_updatePhase_other (p : KFParams) (input : FrameData) (oid : ℕ)
    (h : ∀ qr ∈ input, qr.1 ≠ oid) :
    ∀ st : TrackedSet, alookup (updatePhase p st input) oid = alookup st oid := by
  induction input with
  | nil => intro st; rfl
  | cons qr rest ih =>
      intro st
      rw [updatePhase, List.foldl_cons]
      have h1 : oid ≠ qr.1 := Ne.symm (h qr (List.mem_cons_self qr rest))
      have h2 : ∀ q ∈ rest, q.1 ≠ oid := fun q hq => h q (List.mem_cons_of_mem qr hq)
      rw [show List.foldl (fun acc qr => refreshOne p acc qr.1 qr.2)
            (refreshOne p st qr.1 qr.2) rest =
          updatePhase p (refreshOne p st qr.1 qr.2) rest from rfl]
      rw [ih h2, alookup_refreshOne_ne p st qr.1 oid qr.2 h1]

theorem alookup_updatePhase_new (p : KFParams) (input : FrameData) (oid : ℕ)
    (r : ObsRecord) (hnodup : nodupKeys input) (hmem : (oid, r) ∈ input) :
    ∀ st : TrackedSet, alookup st oid = none →
      alookup (updatePhase p st input) oid =
        some (SetTrueState (MarkDone (SimpleRandomInitializer p r.2.2)) r.1 r.2.1) := by
  induction input with
  | nil => exact absurd hmem (List.not_mem_nil _)
  | cons qr rest ih =>
      obtain ⟨k0, r0⟩ := qr
      intro st hnone
      simp only [nodupKeys, List.map_cons, List.nodup_cons] at hnodup
      rw [updatePhase, List.foldl_cons]
      rw [show List.foldl (fun acc qr => refreshOne p acc qr.1 qr.2)
            (refreshOne p st (k0, r0).1 (k0, r0).2) rest =
          updatePhase p (refreshOne p st k0 r0) rest from rfl]
      by_cases hk : k0 = oid
      · subst hk
        have hr : r0 = r := by
          rcases List.mem_cons.mp hmem with hh | hh
          · exact ((Prod.mk.injEq _ _ _ _).mp hh.symm).2
          · exact absurd (List.mem_map_of_mem Prod.fst hh) hnodup.1
        subst hr
        have hother : ∀ q ∈ rest, q.1 ≠ k0 := fun q hq heq =>
          hnodup.1 (heq ▸ List.mem_map_of_mem Prod.fst hq)
        rw [alookup_updatePhase_other p rest k0 hother]
        rw [refreshOne, hnone]
        exact alookup_setKey_self st _ _
      · have hmem' : (oid, r) ∈ rest := by
          rcases List.mem_cons.mp hmem with hh | hh
          · exact absurd ((Prod.mk.injEq _ _ _ _).mp hh).1.symm hk
          · exact hh
        have hnodup' : nodupKeys rest := hnodup.2
        exact ih hnodup' hmem' _
          (by rw [alookup_refreshOne_ne p st k0 oid r0 (fun hh => hk hh.symm)]
              exact hnone)

theorem correctPhase_eq_map (p : KFParams) (st : TrackedSet) :
    correctPhase p st =
      st.map fun q => (q.1, if q.2.done then q.2 else correctStep p q.2) := by
  rw [correctPhase]
  apply List.map_congr_left
  intro q _
  by_cases hd : q.2.done <;> simp [hd]

theorem alookup_correctPhase (p : KFParams) (st : TrackedSet) (k : ℕ) :
    alookup (correctPhase p st) k =
      (alookup st k).map fun s => if s.done then s else correctStep p s := by
  rw [correctPhase_eq_map]
  exact alookup_map_value st (fun s => if s.done then s else correctStep p s) k

theorem alookup_predictPhase (p : KFParams) (st : TrackedSet) (k : ℕ) :
    alookup (predictPhase p st) k = (alookup st k).map (predictStep p) := by
  rw [predictPhase]
  exact alookup_map_value st _ k

theorem nodupKeys_predictPhase (p : KFParams) (st : TrackedSet)
    (h : nodupKeys st) : nodupKeys (predictPhase p st) := by
  have : (predictPhase p st).map Prod.fst = st.map Prod.fst := by
    rw [predictPhase, List.map_map]
    rfl
  rw [nodupKeys, this]
  exact h

end BayesTrack

namespace BayesTrack
open Matrix

/-! The claim theorems. -/

/-- C1: the correction phase of `Estimate` computes, for every object with
`resolved = false`, the innovation `y = observedPosition - H·predictedState`,
innovation covariance `S = H·P·Hᵀ + R`, gain `K = P·Hᵀ·S⁻¹`, sets
`estimatedState = predictedState + K·y`, `stateCovariance = (I - K·H)·P`
and the resolved flag to `true`, while objects already resolved are left
unchanged (in particular their `estimatedState`). -/
theorem correct_phase_formulas (p : KFParams) (input : FrameData) (st : TrackedSet) :
    Estimate p input st =
      correctPhase p (UpdateTrackedObjects p input (predictPhase p st)) ∧
    correctPhase p st = st.map fun q =>
      if q.2.done then q else
      (q.1, { q.2 with
              x_est := q.2.x_pred +
                (q.2.x_cov * Hmatᵀ *
                  inv2 (Hmat * q.2.x_cov * Hmatᵀ + Rmat p.pos_sigma)).mulVec
                  (q.2.x_obs - Hmat.mulVec q.2.x_pred),
              x_cov := (1 - q.2.x_cov * Hmatᵀ *
                  inv2 (Hmat * q.2.x_cov * Hmatᵀ + Rmat p.pos_sigma) * Hmat) *
                  q.2.x_cov,
              done := true }) :=
  ⟨rfl, rfl⟩

/-- C2: the predict phase of `Estimate` maps every tracked object to the
same object with `predictedState = F·estimatedState`,
`stateCovariance = F·P·Fᵀ + Q` and `resolved = false`, where `F` and `Q`
are the fixed model matrices built from the parameters; it is total and
leaves every other field (observation, estimate, ground truth) unchanged. -/
theorem predict_phase_formulas (p : KFParams) (st : TrackedSet) :
    predictPhase p st = (st.map fun q =>
      (q.1, { q.2 with
              x_pred := (Fmat p.dt).mulVec q.2.x_est,
              x_cov := Fmat p.dt * q.2.x_cov * (Fmat p.dt)ᵀ + Qmat p.dt p.a_sigma,
              done := false })) ∧
    ∀ s : KalmanObjectState,
      (predictStep p s).x_obs = s.x_obs ∧ (predictStep p s).x_est = s.x_est ∧
      (predictStep p s).x_true = s.x_true ∧ (predictStep p s).v_true = s.v_true :=
  ⟨rfl, fun _ => ⟨rfl, rfl, rfl, rfl⟩⟩

/-- C3: if the observed position equals `H · predictedState` exactly then
the correction leaves the estimated state equal to the predicted state,
for any symmetric covariance with non-singular innovation covariance. -/
theorem zero_innovation_identity (p : KFParams) (s : KalmanObjectState)
    (hobs : s.x_obs = Hmat.mulVec s.x_pred)
    (hsym : s.x_covᵀ = s.x_cov)
    (hdet : (innovCov p.pos_sigma s.x_cov).det ≠ 0) :
    (correctStep p s).x_est = s.x_pred := by
  show s.x_pred +
      (gainK p.pos_sigma s.x_cov).mulVec (s.x_obs - Hmat.mulVec s.x_pred) =
    s.x_pred
  rw [hobs, sub_self, Matrix.mulVec_zero, add_zero]

/-- Witness for C3 at the concrete object `s3`. -/
theorem zero_innovation_identity_witness :
    s3.x_obs = Hmat.mulVec s3.x_pred ∧ s3.x_covᵀ = s3.x_cov ∧
    (innovCov pU.pos_sigma s3.x_cov).det ≠ 0 ∧
    (correctStep pU s3).x_est = s3.x_pred := by
  have h1 : s3.x_obs = Hmat.mulVec s3.x_pred := by
    funext i
    fin_cases i <;>
      norm_num [s3, Hmat, Matrix.mulVec, Matrix.dotProduct, Fin.sum_univ_four]
  have h2 : s3.x_covᵀ = s3.x_cov := Matrix.transpose_one
  have h3 : (innovCov pU.pos_sigma s3.x_cov).det ≠ 0 := innovCov_one_det
  exact ⟨h1, h2, h3, zero_innovation_identity pU s3 h1 h2 h3⟩

/-- C4: the initialization fixture — with `dt=1, pos_sigma=1, a_sigma=0.1,
v_mean=1` and observed position `(0,0)`: `delta = 1`, boundary-distance
vector `(-1,-1,0,0)`, selected side index 2 (minimum absolute value, first
occurrence wins), initial velocity `(-1,0)`, and the returned object has
`estimatedState = predictedState = (0,0,-1,0)`, `observedPosition = (0,0)`,
block-diagonal covariance `pos_sigma²·I₂ / a_sigma²·I₂`, no ground truth
yet, and resolved flag already `true`. -/
theorem initializer_fixture :
    p4.v_mean * p4.dt = 1 ∧
    boundaryMean p4 ![0, 0] = ![-1, -1, 0, 0] ∧
    argminAbs (boundaryMean p4 ![0, 0]) = 2 ∧
    SimpleRandomInitializer p4 ![0, 0] =
      { x_obs := ![0, 0], x_est := ![0, 0, -1, 0], x_pred := ![0, 0, -1, 0],
        x_cov := !![1, 0, 0, 0; 0, 1, 0, 0; 0, 0, 1/100, 0; 0, 0, 0, 1/100],
        x_true := none, v_true := none, done := true } := by
  refine ⟨by norm_num [p4], ?_, ?_, ?_⟩
  · funext i
    fin_cases i <;> norm_num [boundaryMean, p4]
  · norm_num [argminAbs, boundaryMean, p4]
  · norm_num [SimpleRandomInitializer, argminAbs, boundaryMean, p4, covInit,
      initVelocity]
    funext i
    fin_cases i <;> norm_num [Fin.append, Fin.addCases, Fin.ext_iff, Fin.castLT]

/-- C5: an identity first appearing in this frame's record set is created
already resolved during the refresh, skipped by the correction phase, and
at the end of `Estimate` its stored object is exactly the initializer
output (with ground truth recorded), whose estimated state is the
heuristic initialization. -/
theorem new_object_estimate_is_initializer (p : KFParams) (st : TrackedSet)
    (input : FrameData) (oid : ℕ) (r : ObsRecord)
    (hnew : alookup st oid = none) (hmem : (oid, r) ∈ input)
    (hnodup : nodupKeys input) :
    alookup (Estimate p input st) oid =
      some (SetTrueState (MarkDone (SimpleRandomInitializer p r.2.2)) r.1 r.2.1) ∧
    (SetTrueState (MarkDone (SimpleRandomInitializer p r.2.2)) r.1 r.2.1).x_est =
      (SimpleRandomInitializer p r.2.2).x_est := by
  have h1 : alookup (predictPhase p st) oid = none := by
    rw [alookup_predictPhase, hnew]
    rfl
  have h2 : alookup (removePhase (predictPhase p st) input) oid = none :=
    alookup_removePhase_none _ input oid h1
  have h3 := alookup_updatePhase_new p input oid r hnodup hmem _ h2
  refine ⟨?_, rfl⟩
  show alookup (correctPhase p (UpdateTrackedObjects p input (predictPhase p st)))
      oid = _
  rw [alookup_correctPhase]
  rw [show UpdateTrackedObjects p input (predictPhase p st) =
        updatePhase p (removePhase (predictPhase p st) input) input from rfl]
  rw [h3]
  rfl

/-- Witness for C5: a fresh identity 5 in a one-record frame over an empty
tracked set. -/
theorem new_object_estimate_is_initializer_witness :
    alookup ([] : TrackedSet) 5 = none ∧ (5, r5) ∈ input5 ∧ nodupKeys input5 ∧
    alookup (Estimate pU input5 []) 5 =
      some (SetTrueState (MarkDone (SimpleRandomInitializer pU r5.2.2)) r5.1 r5.2.1) ∧
    (SetTrueState (MarkDone (SimpleRandomInitializer pU r5.2.2)) r5.1 r5.2.1).x_est =
      (SimpleRandomInitializer pU r5.2.2).x_est := by
  have h1 : alookup ([] : TrackedSet) 5 = none := rfl
  have h2 : (5, r5) ∈ input5 := List.mem_cons_self _ _
  have h3 : nodupKeys input5 := by simp [nodupKeys, input5]
  obtain ⟨ha, hb⟩ := new_object_estimate_is_initializer pU [] input5 5 r5 h1 h2 h3
  exact ⟨h1, h2, h3, ha, hb⟩

/-- C6: a symmetric positive semi-definite state covariance stays
symmetric and positive semi-definite under both the predict update
`F·P·Fᵀ + Q` and the correction update `(I - K·H)·P` (the latter provided
the innovation covariance is invertible, as required for the gain). -/
theorem covariance_invariant_preserved (p : KFParams) (s : KalmanObjectState)
    (hP : SymPSD s.x_cov) (hdet : (innovCov p.pos_sigma s.x_cov).det ≠ 0) :
    SymPSD (predictStep p s).x_cov ∧ SymPSD (correctStep p s).x_cov := by
  obtain ⟨hsym, hpsd⟩ := hP
  refine ⟨⟨predictCov_symm p.dt p.a_sigma s.x_cov hsym,
           predictCov_psd p.dt p.a_sigma s.x_cov hpsd⟩,
          ⟨correctCov_symm p.pos_sigma s.x_cov hsym, ?_⟩⟩
  intro x
  show 0 ≤ x ⬝ᵥ ((((1 : Mat4) - gainK p.pos_sigma s.x_cov * Hmat) * s.x_cov).mulVec x)
  rw [correct_quadform p.pos_sigma s.x_cov hdet x]
  exact add_nonneg (hpsd _) (Rmat_psd _ _)

/-- Witness for C6 at identity covariance and unit parameters. -/
theorem covariance_invariant_preserved_witness :
    SymPSD s6.x_cov ∧ (innovCov pU.pos_sigma s6.x_cov).det ≠ 0 ∧
    SymPSD (predictStep pU s6).x_cov ∧ SymPSD (correctStep pU s6).x_cov := by
  have h1 : SymPSD s6.x_cov := by
    refine ⟨Matrix.transpose_one, fun x => ?_⟩
    show 0 ≤ x ⬝ᵥ ((1 : Mat4).mulVec x)
    rw [Matrix.one_mulVec]
    exact dotSelf_nonneg x
  have h2 : (innovCov pU.pos_sigma s6.x_cov).det ≠ 0 := innovCov_one_det
  obtain ⟨ha, hb⟩ := covariance_invariant_preserved pU s6 h1 h2
  exact ⟨h1, h2, ha, hb⟩

/-- C7 counterexample: with `dt`, `pos_sigma`, `a_sigma` present but
`v_mean` missing, the filter constructor (the only pre-run parameter
access) succeeds — no configuration error is raised before frame 0 — and
the `KeyError` for `v_mean` surfaces only when `SimpleRandomInitializer`
first runs, refuting the claim that a missing `v_mean` faults pre-run. -/
theorem vmean_missing_not_prerun :
    pd0.v_mean = none ∧ isOkE (KalmanFilterGenericInit pd0) = true ∧
    SimpleRandomInitializerE pd0 ![0, 0] = Except.error "KeyError: v_mean" :=
  ⟨rfl, rfl, rfl⟩

/-- C7 amended: the constructor of the generic filter raises `KeyError`
before any frame exactly when one of `dt`, `pos_sigma`, `a_sigma` is
missing — it never reads `v_mean`; a missing `v_mean` (with the two sigma
keys present) raises only inside `SimpleRandomInitializer`, at the first
initialization of a new object. -/
theorem config_key_error_timing (pd : ParamDict) (pos : Vec2) :
    (isOkE (KalmanFilterGenericInit pd) =
      (pd.dt.isSome && pd.pos_sigma.isSome && pd.a_sigma.isSome)) ∧
    (pd.pos_sigma.isSome → pd.a_sigma.isSome → pd.v_mean = none →
      SimpleRandomInitializerE pd pos = Except.error "KeyError: v_mean") := by
  constructor
  · rcases pd with ⟨dt, ps, asig, vm⟩
    cases dt <;> cases ps <;> cases asig <;> rfl
  · intro h1 h2 h3
    rcases pd with ⟨dt, ps, asig, vm⟩
    obtain ⟨psv, hps⟩ := Option.isSome_iff_exists.mp h1
    obtain ⟨asv, has⟩ := Option.isSome_iff_exists.mp h2
    simp only at h3
    subst h3
    subst hps
    subst has
    rfl

/-- Witness for C7 at the dict `pd0` (missing `v_mean` only). -/
theorem config_key_error_timing_witness :
    pd0.pos_sigma.isSome = true ∧ pd0.a_sigma.isSome = true ∧
    pd0.v_mean = none ∧
    isOkE (KalmanFilterGenericInit pd0) =
      (pd0.dt.isSome && pd0.pos_sigma.isSome && pd0.a_sigma.isSome) ∧
    SimpleRandomInitializerE pd0 ![0, 0] = Except.error "KeyError: v_mean" := by
  obtain ⟨h1, h2⟩ := config_key_error_timing pd0 ![0, 0]
  exact ⟨rfl, rfl, rfl, h1, h2 rfl rfl rfl⟩

/-- C8: with an empty tracked set, `ComputeError` hits the `0/0` division
(`ZeroDivisionError`) and produces no value to append for the frame, for
any square-root function. -/
theorem compute_error_empty_division (sq : ℚ → ℚ) :
    ComputeError sq [] = Except.error "ZeroDivisionError" := rfl

/-- C9: an identity absent from this frame's record set is gone from the
tracked set right after the refresh, is still gone after the correction
phase (so the correction never touches it), and erasing it from the final
tracked set is a no-op, so it contributes nothing to the frame's error
computation. -/
theorem disappeared_identity_removed (p : KFParams) (sq : ℚ → ℚ)
    (st : TrackedSet) (input : FrameData) (oid : ℕ)
    (hst : nodupKeys st) (habs : alookup input oid = none) :
    alookup (UpdateTrackedObjects p input (predictPhase p st)) oid = none ∧
    alookup (Estimate p input st) oid = none ∧
    ComputeError sq (Estimate p input st) =
      ComputeError sq (eraseKey (Estimate p input st) oid) := by
  have hkeys : ∀ qr ∈ input, qr.1 ≠ oid := by
    intro qr hq heq
    exact (alookup_eq_none_iff input oid).mp habs
      (heq ▸ List.mem_map_of_mem Prod.fst hq)
  have h0 : nodupKeys (predictPhase p st) := nodupKeys_predictPhase p st hst
  have h1 : alookup (removePhase (predictPhase p st) input) oid = none := by
    rw [removePhase_eq_filter _ input h0]
    refine alookup_filter_key (fun k => (alookup input k).isSome) _ oid ?_
    show (alookup input oid).isSome = false
    rw [habs]
    rfl
  have h2 : alookup (UpdateTrackedObjects p input (predictPhase p st)) oid = none := by
    rw [show UpdateTrackedObjects p input (predictPhase p st) =
          updatePhase p (removePhase (predictPhase p st) input) input from rfl]
    rw [alookup_updatePhase_other p input oid hkeys]
    exact h1
  have h3 : alookup (Estimate p input st) oid = none := by
    rw [show Estimate p input st =
          correctPhase p (UpdateTrackedObjects p input (predictPhase p st)) from rfl]
    rw [alookup_correctPhase, h2]
    rfl
  exact ⟨h2, h3, by rw [eraseKey_of_none _ oid h3]⟩

/-- Witness for C9: identity 7 is tracked, the next frame's record set is
empty. -/
theorem disappeared_identity_removed_witness :
    nodupKeys st9 ∧ alookup ([] : FrameData) 7 = none ∧
    alookup (UpdateTrackedObjects pU [] (predictPhase pU st9)) 7 = none ∧
    alookup (Estimate pU [] st9) 7 = none ∧
    ComputeError (fun x => x) (Estimate pU [] st9) =
      ComputeError (fun x => x) (eraseKey (Estimate pU [] st9) 7) := by
  have h1 : nodupKeys st9 := by simp [nodupKeys, st9]
  have h2 : alookup ([] : FrameData) 7 = none := rfl
  obtain ⟨ha, hb, hc⟩ :=
    disappeared_identity_removed pU (fun x => x) st9 [] 7 h1 h2
  exact ⟨h1, h2, ha, hb, hc⟩

/-- C10: the removal half of the refresh is equivalent to the two-phase
procedure that first computes the removal set from a snapshot of the keys
and only then applies the deletions, and it equals the one-pass filter
keeping exactly the still-observed identities — so it completes for every
record set, including one dropping several identities at once. -/
theorem removal_two_phase_safe (st : TrackedSet) (input : FrameData)
    (h : nodupKeys st) :
    removePhase st input =
      ((st.map Prod.fst).filter fun k => (alookup input k).isNone).foldl
        eraseKey st ∧
    removePhase st input = st.filter fun q => (alookup input q.1).isSome :=
  ⟨removePhase_two_phase st input h, removePhase_eq_filter st input h⟩

/-- Witness for C10: three tracked identities of which two disappear at
once. -/
theorem removal_two_phase_safe_witness :
    nodupKeys st10 ∧
    removePhase st10 input10 =
      ((st10.map Prod.fst).filter fun k => (alookup input10 k).isNone).foldl
        eraseKey st10 ∧
    removePhase st10 input10 =
      st10.filter fun q => (alookup input10 q.1).isSome := by
  have h1 : nodupKeys st10 := by simp [nodupKeys, st10]
  obtain ⟨ha, hb⟩ := removal_two_phase_safe st10 input10 h1
  exact ⟨h1, ha, hb⟩

end BayesTrack
